import Mathlib

/-!
Verification of the frame-selection and conversion logic of
`src/dwebp/src/lib.rs` (crate `dwebp` of `bk-rs/webp-rs`).

The repository's own logic is: decode animated-webp bytes into a frame
sequence, select frame(s) by an `AwebpFramePosition` policy, convert each
selected frame to an RGBA image, and PNG-encode it.  The three external
codec libraries (the `webp_animation` decoder, the frame-to-image
conversion, and the `image` crate's `PngEncoder`) are out of scope and are
modelled abstractly as fields of a `Codec` structure; everything the
repository itself does is embedded faithfully below.
-/

namespace Dwebp

/-- An RGBA image produced by `Frame::into_image`: width, height and the
flat byte buffer exposed by `as_bytes`. -/
structure Image where
  width : Nat
  height : Nat
  bytes : List Nat
deriving DecidableEq, Repr

/-- `image::ColorType` as passed to `PngEncoder::write_image`; the source
always passes `Rgba::<u8>::COLOR_TYPE`. -/
inductive ColorType where
  | Rgba8
deriving DecidableEq, Repr

/-- The `AwebpFramePosition` enum of the source. -/
inductive AwebpFramePosition where
  | First
  | Specific (n : Nat)
  | Last
deriving DecidableEq, Repr

/-- `impl Default for AwebpFramePosition`: the default is `First`. -/
def AwebpFramePosition.default : AwebpFramePosition := AwebpFramePosition.First

/-- The `AwebpToPngError` enum of the source. -/
inductive AwebpToPngError where
  | DecodeAwebpFailed
  | AwebpSpecificFrameIsNone
  | ToImageFailed
  | EncodePngFailed
deriving DecidableEq, Repr

/-- The external collaborators, abstracted.  `Frame` is the opaque frame
type yielded by the decoder's iterator.

* `decode` models `AwebPDecoder::new(bytes)` followed by `into_iter()`:
  `none` when the bytes are not a valid animated container, otherwise the
  finite sequence of frames the iterator yields, in decode order.
* `intoImage` models `Frame::into_image()`; `none` when the frame cannot
  be converted to an RGBA image.
* `writePng` models `PngEncoder::new(&mut buf).write_image(bytes, w, h, ct)`:
  `none` when the encoder rejects the input, otherwise the encoded PNG
  bytes left in `buf`. -/
structure Codec (Frame : Type) where
  decode : List Nat → Option (List Frame)
  intoImage : Frame → Option Image
  writePng : List Nat → Nat → Nat → ColorType → Option (List Nat)

/-- `iter.enumerate().find(p)` on a list, where `i` is the enumeration
index of the head: returns the first enumerated element satisfying `p`. -/
def enumFind {α : Type} (p : Nat × α → Bool) : List α → Nat → Option (Nat × α)
  | [], _ => none
  | x :: xs, i => if p (i, x) then some (i, x) else enumFind p xs (i + 1)

/-- `iter.enumerate().find(p)` instrumented with the number of elements the
iterator yields before `find` returns: `find` calls `next` until `p` holds,
so every element up to and including the match (or the whole sequence, when
nothing matches) is consumed. -/
def enumFindConsume {α : Type} (p : Nat × α → Bool) :
    List α → Nat → Option (Nat × α) × Nat
  | [], _ => (none, 0)
  | x :: xs, i =>
    if p (i, x) then (some (i, x), 1)
    else
      let r := enumFindConsume p xs (i + 1)
      (r.1, r.2 + 1)

/-- The `match frame_position` block of `awebp_to_single_png`: select one
frame from the decoder's iterator (here: the list of frames it yields).

* `First`: `iter.enumerate().find(|(i, _)| *i == 0)`.
* `Specific n`: `let n = max(1, n)` then
  `iter.enumerate().find(|(i, _)| *i == n - 1)`.
* `Last`: `iter.last()`.

Each arm maps a missing frame to `AwebpSpecificFrameIsNone`. -/
def selectFrame {Frame : Type} (frames : List Frame) :
    AwebpFramePosition → Except AwebpToPngError Frame
  | AwebpFramePosition.First =>
    match enumFind (fun q => q.1 == 0) frames 0 with
    | some q => Except.ok q.2
    | none => Except.error AwebpToPngError.AwebpSpecificFrameIsNone
  | AwebpFramePosition.Specific n =>
    let n := max 1 n
    match enumFind (fun q => q.1 == n - 1) frames 0 with
    | some q => Except.ok q.2
    | none => Except.error AwebpToPngError.AwebpSpecificFrameIsNone
  | AwebpFramePosition.Last =>
    match frames.getLast? with
    | some f => Except.ok f
    | none => Except.error AwebpToPngError.AwebpSpecificFrameIsNone

/-- `selectFrame` instrumented with the number of frames the selection
consumes from the decoder's single-pass iterator: `find` consumes up to and
including the match, and `Iterator::last` drains the whole sequence. -/
def selectFrameConsume {Frame : Type} (frames : List Frame) :
    AwebpFramePosition → Except AwebpToPngError Frame × Nat
  | AwebpFramePosition.First =>
    match enumFindConsume (fun q => q.1 == 0) frames 0 with
    | (some q, k) => (Except.ok q.2, k)
    | (none, k) => (Except.error AwebpToPngError.AwebpSpecificFrameIsNone, k)
  | AwebpFramePosition.Specific n =>
    let n := max 1 n
    match enumFindConsume (fun q => q.1 == n - 1) frames 0 with
    | (some q, k) => (Except.ok q.2, k)
    | (none, k) => (Except.error AwebpToPngError.AwebpSpecificFrameIsNone, k)
  | AwebpFramePosition.Last =>
    match frames.getLast? with
    | some f => (Except.ok f, frames.length)
    | none => (Except.error AwebpToPngError.AwebpSpecificFrameIsNone,
        frames.length)

/-- `pub fn awebp_to_single_png(awebp_bytes, frame_position)`.

`frame_position.into().unwrap_or_default()` defaults a missing position to
`First`; decoding failure is `DecodeAwebpFailed`; the selected frame is
converted with `into_image` (failure `ToImageFailed`) and PNG-encoded with
the fixed `Rgba8` color type (failure `EncodePngFailed`).  The
`Vec::with_capacity(image.as_bytes().len())` in the source is only a
capacity hint and has no observable effect. -/
def awebp_to_single_png {Frame : Type} (c : Codec Frame)
    (awebp_bytes : List Nat) (frame_position : Option AwebpFramePosition) :
    Except AwebpToPngError (List Nat) :=
  let fp := frame_position.getD AwebpFramePosition.default
  match c.decode awebp_bytes with
  | none => Except.error AwebpToPngError.DecodeAwebpFailed
  | some frames =>
    match selectFrame frames fp with
    | Except.error e => Except.error e
    | Except.ok webp_frame =>
      match c.intoImage webp_frame with
      | none => Except.error AwebpToPngError.ToImageFailed
      | some image =>
        match c.writePng image.bytes image.width image.height
            ColorType.Rgba8 with
        | none => Except.error AwebpToPngError.EncodePngFailed
        | some buf => Except.ok buf

/-- `iter.map(f).collect::<Result<Vec<_>, _>>()`: fail-fast collection.
The first `Err` that `f` produces is returned and nothing after it is
evaluated; otherwise the list of all `Ok` values, in order. -/
def mapCollect {α β ε : Type} (f : α → Except ε β) :
    List α → Except ε (List β)
  | [] => Except.ok []
  | x :: xs =>
    match f x with
    | Except.error e => Except.error e
    | Except.ok b =>
      match mapCollect f xs with
      | Except.error e => Except.error e
      | Except.ok bs => Except.ok (b :: bs)

/-- `mapCollect` instrumented with the number of elements `f` is applied
to: `collect` over a `Result` short-circuits, so once `f` fails nothing
after the failing element is processed. -/
def mapCollectConsume {α β ε : Type} (f : α → Except ε β) :
    List α → Except ε (List β) × Nat
  | [] => (Except.ok [], 0)
  | x :: xs =>
    match f x with
    | Except.error e => (Except.error e, 1)
    | Except.ok b =>
      match mapCollectConsume f xs with
      | (Except.error e, k) => (Except.error e, k + 1)
      | (Except.ok bs, k) => (Except.ok (b :: bs), k + 1)

/-- The closure mapped over the frame iterator in `awebp_to_multi_png`:
`into_image` then `PngEncoder::write_image` with `Rgba8`, identical to the
per-frame tail of `awebp_to_single_png`. -/
def frameToPng {Frame : Type} (c : Codec Frame) (webp_frame : Frame) :
    Except AwebpToPngError (List Nat) :=
  match c.intoImage webp_frame with
  | none => Except.error AwebpToPngError.ToImageFailed
  | some image =>
    match c.writePng image.bytes image.width image.height
        ColorType.Rgba8 with
    | none => Except.error AwebpToPngError.EncodePngFailed
    | some buf => Except.ok buf

/-- `pub fn awebp_to_multi_png(awebp_bytes)`: decode, then map the
per-frame conversion over the iterator and collect fail-fast. -/
def awebp_to_multi_png {Frame : Type} (c : Codec Frame)
    (awebp_bytes : List Nat) : Except AwebpToPngError (List (List Nat)) :=
  match c.decode awebp_bytes with
  | none => Except.error AwebpToPngError.DecodeAwebpFailed
  | some frames => mapCollect (frameToPng c) frames

/-- The number of frames the single-frame selection is required to be able
to draw from the sequence: one for `First` and `Last`, the clamped index
for `Specific`.  A sequence shorter than this cannot satisfy the policy. -/
def requiredFrames : AwebpFramePosition → Nat
  | AwebpFramePosition.First => 1
  | AwebpFramePosition.Specific n => max 1 n
  | AwebpFramePosition.Last => 1

/-- `enumerate().find(|(i, _)| *i == k)`, started at enumeration index `i`,
locates the element at absolute index `k` of the list (when it exists). -/
theorem enumFind_eq_getElem? {α : Type} (l : List α) :
    ∀ i k : Nat, enumFind (fun q => q.1 == k) l i =
      if i ≤ k then (l[k - i]?).map (fun x => (k, x)) else none := by
  induction l with
  | nil =>
    intro i k
    simp [enumFind]
  | cons x xs ih =>
    intro i k
    simp only [enumFind]
    by_cases h : i = k
    · subst h
      simp
    · simp only [show ((i == k) : Bool) = false by simpa using h,
        Bool.false_eq_true, if_false, ih]
      rcases Nat.lt_or_ge i k with hlt | hge
      · rw [if_pos (by omega), if_pos (by omega),
          show k - i = (k - (i + 1)) + 1 by omega, List.getElem?_cons_succ]
      · rw [if_neg (by omega), if_neg (by omega)]

/-- The instrumented `find` returns the same result as the plain one. -/
theorem enumFindConsume_fst {α : Type} (p : Nat × α → Bool) (l : List α) :
    ∀ i, (enumFindConsume p l i).1 = enumFind p l i := by
  induction l with
  | nil => intro i; rfl
  | cons x xs ih =>
    intro i
    simp only [enumFindConsume, enumFind]
    by_cases h : p (i, x)
    · simp [h]
    · simp [h, ih]

/-- `enumerate().find(|(i, _)| *i == k)` consumes `min (k + 1 - i) l.length`
elements when started at index `i ≤ k`: one `next` per enumerated element,
stopping at the match or at the end of the sequence. -/
theorem enumFindConsume_count {α : Type} (k : Nat) (l : List α) :
    ∀ i, i ≤ k →
      (enumFindConsume (fun q => q.1 == k) l i).2 = min (k + 1 - i) l.length := by
  induction l with
  | nil =>
    intro i _
    simp [enumFindConsume]
  | cons x xs ih =>
    intro i hik
    simp only [enumFindConsume]
    by_cases h : i = k
    · subst h
      simp only [show ((i == i) : Bool) = true from by simp, if_true]
      simp only [List.length_cons]
      omega
    · rw [show ((i == k) : Bool) = false by simpa using h]
      simp only [Bool.false_eq_true, if_false, List.length_cons]
      rw [ih (i + 1) (by omega)]
      omega

/-- The `Specific n` arm of the selection: clamp `n` to a minimum of 1, then
take the element at index `max 1 n - 1`. -/
theorem selectFrame_specific_eq {Frame : Type} (frames : List Frame) (n : Nat) :
    selectFrame frames (AwebpFramePosition.Specific n) =
      (match frames[max 1 n - 1]? with
       | some f => Except.ok f
       | none => Except.error AwebpToPngError.AwebpSpecificFrameIsNone) := by
  have h := enumFind_eq_getElem? frames 0 (max 1 n - 1)
  simp only [Nat.zero_le, if_true, Nat.sub_zero] at h
  simp only [selectFrame]
  rw [h]
  cases frames[max 1 n - 1]? <;> rfl

/-- The `First` arm of the selection takes the element at index 0. -/
theorem selectFrame_first_eq {Frame : Type} (frames : List Frame) :
    selectFrame frames AwebpFramePosition.First =
      (match frames[0]? with
       | some f => Except.ok f
       | none => Except.error AwebpToPngError.AwebpSpecificFrameIsNone) := by
  have h := enumFind_eq_getElem? frames 0 0
  simp only [Nat.zero_le, if_true, Nat.sub_zero] at h
  simp only [selectFrame]
  rw [h]
  cases frames[(0 : Nat)]? <;> rfl

/-- The instrumented selection returns the same frame (or error) as the
plain one. -/
theorem selectFrameConsume_fst {Frame : Type} (frames : List Frame)
    (fp : AwebpFramePosition) :
    (selectFrameConsume frames fp).1 = selectFrame frames fp := by
  cases fp with
  | First =>
    have hf := enumFindConsume_fst (fun q => q.1 == 0) frames 0
    simp only [selectFrameConsume, selectFrame]
    cases hE : enumFindConsume (fun q => q.1 == 0) frames 0 with
    | mk r k =>
      rw [hE] at hf
      rw [← hf]
      cases r <;> rfl
  | Specific n =>
    have hf := enumFindConsume_fst (fun q => q.1 == max 1 n - 1) frames 0
    simp only [selectFrameConsume, selectFrame]
    cases hE : enumFindConsume (fun q => q.1 == max 1 n - 1) frames 0 with
    | mk r k =>
      rw [hE] at hf
      rw [← hf]
      cases r <;> rfl
  | Last =>
    simp only [selectFrameConsume, selectFrame]
    cases frames.getLast? <;> rfl

/-- Selection with `Specific n` consumes exactly `min (max 1 n) L` frames
from the single-pass iterator. -/
theorem selectFrameConsume_specific_count {Frame : Type} (frames : List Frame)
    (n : Nat) :
    (selectFrameConsume frames (AwebpFramePosition.Specific n)).2 =
      min (max 1 n) frames.length := by
  have h := enumFindConsume_count (max 1 n - 1) frames 0 (Nat.zero_le _)
  simp only [selectFrameConsume]
  cases hE : enumFindConsume (fun q => q.1 == max 1 n - 1) frames 0 with
  | mk r k =>
    rw [hE] at h
    cases r <;> simp only [] <;> omega

/-- Selection with `First` consumes exactly `min 1 L` frames. -/
theorem selectFrameConsume_first_count {Frame : Type} (frames : List Frame) :
    (selectFrameConsume frames AwebpFramePosition.First).2 =
      min 1 frames.length := by
  have h := enumFindConsume_count 0 frames 0 (Nat.le_refl 0)
  simp only [selectFrameConsume]
  cases hE : enumFindConsume (fun q => q.1 == 0) frames 0 with
  | mk r k =>
    rw [hE] at h
    cases r <;> simp only [] <;> omega

/-- A sequence shorter than the policy's required length makes the
selection fail with `AwebpSpecificFrameIsNone`. -/
theorem selectFrame_too_short {Frame : Type} (frames : List Frame)
    (fp : AwebpFramePosition) (hshort : frames.length < requiredFrames fp) :
    selectFrame frames fp =
      Except.error AwebpToPngError.AwebpSpecificFrameIsNone := by
  cases fp with
  | First =>
    rw [selectFrame_first_eq, List.getElem?_eq_none]
    simp only [requiredFrames] at hshort
    omega
  | Specific n =>
    rw [selectFrame_specific_eq, List.getElem?_eq_none]
    simp only [requiredFrames] at hshort
    omega
  | Last =>
    have hnil : frames = [] := by
      simp only [requiredFrames] at hshort
      exact List.eq_nil_of_length_eq_zero (by omega)
    subst hnil
    rfl

/-- When `f` succeeds on every element, the fail-fast collection is the
plain map. -/
theorem mapCollect_map {α β ε : Type} (f : α → Except ε β) (g : α → β)
    (l : List α) (h : ∀ x ∈ l, f x = Except.ok (g x)) :
    mapCollect f l = Except.ok (l.map g) := by
  induction l with
  | nil => rfl
  | cons x xs ih =>
    simp only [mapCollect]
    rw [h x (List.mem_cons_self x xs),
      ih (fun y hy => h y (List.mem_cons_of_mem x hy))]
    rfl

/-- A successful fail-fast collection maps index-for-index: the `k`-th
output is `f` applied to the `k`-th input. -/
theorem mapCollect_ok_getElem? {α β ε : Type} (f : α → Except ε β) :
    ∀ (l : List α) (outs : List β), mapCollect f l = Except.ok outs →
      ∀ k : Nat, outs[k]? = (l[k]?).bind (fun x => (f x).toOption) := by
  intro l
  induction l with
  | nil =>
    intro outs h k
    simp only [mapCollect, Except.ok.injEq] at h
    subst h
    simp
  | cons x xs ih =>
    intro outs h k
    simp only [mapCollect] at h
    cases hfx : f x with
    | error e =>
      rw [hfx] at h
      exact absurd h (by simp)
    | ok b =>
      rw [hfx] at h
      cases hxs : mapCollect f xs with
      | error e =>
        rw [hxs] at h
        exact absurd h (by simp)
      | ok bs =>
        rw [hxs] at h
        simp only [Except.ok.injEq] at h
        subst h
        cases k with
        | zero => simp [hfx, Except.toOption]
        | succ k =>
          simp only [List.getElem?_cons_succ]
          exact ih bs hxs k

/-- A successful fail-fast collection has one output per input. -/
theorem mapCollect_ok_length {α β ε : Type} (f : α → Except ε β) :
    ∀ (l : List α) (outs : List β), mapCollect f l = Except.ok outs →
      outs.length = l.length := by
  intro l
  induction l with
  | nil =>
    intro outs h
    simp only [mapCollect, Except.ok.injEq] at h
    subst h
    rfl
  | cons x xs ih =>
    intro outs h
    simp only [mapCollect] at h
    cases hfx : f x with
    | error e =>
      rw [hfx] at h
      exact absurd h (by simp)
    | ok b =>
      rw [hfx] at h
      cases hxs : mapCollect f xs with
      | error e =>
        rw [hxs] at h
        exact absurd h (by simp)
      | ok bs =>
        rw [hxs] at h
        simp only [Except.ok.injEq] at h
        subst h
        simp [ih bs hxs]

/-- The instrumented fail-fast collection returns the same result as the
plain one. -/
theorem mapCollectConsume_fst {α β ε : Type} (f : α → Except ε β) :
    ∀ l : List α, (mapCollectConsume f l).1 = mapCollect f l := by
  intro l
  induction l with
  | nil => rfl
  | cons x xs ih =>
    simp only [mapCollectConsume, mapCollect]
    cases hfx : f x with
    | error e => rfl
    | ok b =>
      cases hE : mapCollectConsume f xs with
      | mk r c =>
        rw [hE] at ih
        rw [← ih]
        cases r <;> rfl

/-- If the first failure of `f` on `l` is at index `k` (every earlier
element succeeds), the fail-fast collection returns that error and `f` is
applied to exactly `k + 1` elements. -/
theorem mapCollect_error_at {α β ε : Type} (f : α → Except ε β) :
    ∀ (l : List α) (k : Nat) (x : α) (e : ε),
      l[k]? = some x → f x = Except.error e →
      (∀ j, j < k → ∀ y, l[j]? = some y → ∃ b, f y = Except.ok b) →
      mapCollect f l = Except.error e ∧ (mapCollectConsume f l).2 = k + 1 := by
  intro l
  induction l with
  | nil =>
    intro k x e hk
    simp at hk
  | cons a as ih =>
    intro k x e hk hfx hok
    cases k with
    | zero =>
      simp only [List.getElem?_cons_zero, Option.some.injEq] at hk
      subst hk
      exact ⟨by simp [mapCollect, hfx], by simp [mapCollectConsume, hfx]⟩
    | succ k =>
      obtain ⟨b, hb⟩ := hok 0 (Nat.succ_pos k) a (by simp)
      have hk' : as[k]? = some x := by simpa using hk
      have hok' : ∀ j, j < k → ∀ y, as[j]? = some y → ∃ b, f y = Except.ok b := by
        intro j hj y hy
        exact hok (j + 1) (Nat.succ_lt_succ hj) y (by simpa using hy)
      obtain ⟨h1, h2⟩ := ih k x e hk' hfx hok'
      have hfst := mapCollectConsume_fst f as
      refine ⟨by simp [mapCollect, hb, h1], ?_⟩
      simp only [mapCollectConsume, hb]
      cases hE : mapCollectConsume f as with
      | mk r c =>
        rw [hE] at hfst h2
        have hr : r = Except.error e := hfst.trans h1
        have hc : c = k + 1 := h2
        subst hr
        show c + 1 = k + 1 + 1
        omega

/-- A concrete three-frame sequence used to evaluate the theorems. -/
def witFrames : List Nat := [10, 20, 30]

/-- A concrete, fully successful codec: byte input `[0]` decodes to
`witFrames`, `[1]` decodes to an empty animation, anything else is not a
valid container; every frame converts to a 1×1 RGBA image and every image
encodes. -/
def witCodec : Codec Nat where
  decode := fun bs =>
    if bs = [0] then some witFrames else if bs = [1] then some [] else none
  intoImage := fun f => some ⟨1, 1, [f, 0, 0, 255]⟩
  writePng := fun bytes w h _ => some (w :: h :: bytes)

/-- A concrete codec whose second frame (value 20) fails `into_image`. -/
def witCodecFail : Codec Nat where
  decode := fun bs => if bs = [0] then some witFrames else none
  intoImage := fun f => if f = 20 then none else some ⟨1, 1, [f, 0, 0, 255]⟩
  writePng := fun bytes w h _ => some (w :: h :: bytes)

/-- C1: `Specific(n)` first clamps `n` to a minimum of 1 and then selects
the `(max 1 n - 1)`-th element (0-indexed) of the frame sequence;
consequently `Specific(0)` and `Specific(1)` conversions agree on every
input. -/
theorem specific_clamps_and_zero_one_agree {Frame : Type} (c : Codec Frame)
    (awebp_bytes : List Nat) (frames : List Frame) (n : Nat) :
    selectFrame frames (AwebpFramePosition.Specific n) =
      (match frames[max 1 n - 1]? with
       | some f => Except.ok f
       | none => Except.error AwebpToPngError.AwebpSpecificFrameIsNone)
    ∧ awebp_to_single_png c awebp_bytes (some (AwebpFramePosition.Specific 0)) =
        awebp_to_single_png c awebp_bytes (some (AwebpFramePosition.Specific 1)) :=
  ⟨selectFrame_specific_eq frames n, rfl⟩

/-- C2: when decoding succeeds but the frame sequence is shorter than the
requested position (or empty), single-frame conversion fails with
`AwebpSpecificFrameIsNone`, not with `DecodeAwebpFailed`. -/
theorem single_frame_not_found {Frame : Type} (c : Codec Frame)
    (awebp_bytes : List Nat) (frames : List Frame) (fp : AwebpFramePosition)
    (hdec : c.decode awebp_bytes = some frames)
    (hshort : frames.length < requiredFrames fp) :
    awebp_to_single_png c awebp_bytes (some fp) =
      Except.error AwebpToPngError.AwebpSpecificFrameIsNone := by
  have hsel := selectFrame_too_short frames fp hshort
  simp only [awebp_to_single_png, Option.getD_some, hdec, hsel]

theorem single_frame_not_found_witness :
    awebp_to_single_png witCodec [1] (some AwebpFramePosition.First) =
      Except.error AwebpToPngError.AwebpSpecificFrameIsNone :=
  single_frame_not_found witCodec [1] [] AwebpFramePosition.First rfl
    (by decide)

/-- C3: all-frames conversion is fail-fast: when the first per-frame
failure is at index `k`, the whole call returns exactly that error (so no
partial list of buffers is produced) and the per-frame pipeline runs on
exactly `k + 1` frames — frames after the failing one are not processed. -/
theorem multi_fail_fast {Frame : Type} (c : Codec Frame)
    (awebp_bytes : List Nat) (frames : List Frame) (k : Nat) (fr : Frame)
    (e : AwebpToPngError)
    (hdec : c.decode awebp_bytes = some frames)
    (hk : frames[k]? = some fr)
    (hfail : frameToPng c fr = Except.error e)
    (hok : ∀ j, j < k → ∀ y, frames[j]? = some y →
      ∃ b, frameToPng c y = Except.ok b) :
    awebp_to_multi_png c awebp_bytes = Except.error e ∧
      (mapCollectConsume (frameToPng c) frames).2 = k + 1 := by
  obtain ⟨h1, h2⟩ := mapCollect_error_at (frameToPng c) frames k fr e hk hfail hok
  refine ⟨?_, h2⟩
  simp only [awebp_to_multi_png, hdec]
  exact h1

theorem multi_fail_fast_witness :
    awebp_to_multi_png witCodecFail [0] =
        Except.error AwebpToPngError.ToImageFailed ∧
      (mapCollectConsume (frameToPng witCodecFail) witFrames).2 = 2 :=
  multi_fail_fast witCodecFail [0] witFrames 1 20 AwebpToPngError.ToImageFailed
    rfl (by simp [witFrames]) rfl
    (by
      intro j hj y hy
      have hj0 : j = 0 := by omega
      subst hj0
      have h0 : witFrames[(0 : Nat)]? = some (10 : Nat) := by simp [witFrames]
      have h10 := (h0.symm.trans hy)
      simp only [Option.some.injEq] at h10
      subst h10
      exact ⟨[1, 1, 10, 0, 0, 255], rfl⟩)

/-- C4: when every frame converts and encodes successfully (to `g fr` for
frame `fr`), all-frames conversion returns exactly one buffer per source
frame, in decode order — the map of the per-frame pipeline over the
decoded sequence. -/
theorem multi_one_png_per_frame {Frame : Type} (c : Codec Frame)
    (awebp_bytes : List Nat) (frames : List Frame) (g : Frame → List Nat)
    (hdec : c.decode awebp_bytes = some frames)
    (hok : ∀ fr ∈ frames, frameToPng c fr = Except.ok (g fr)) :
    awebp_to_multi_png c awebp_bytes = Except.ok (frames.map g) ∧
      (frames.map g).length = frames.length := by
  refine ⟨?_, by simp⟩
  simp only [awebp_to_multi_png, hdec]
  exact mapCollect_map (frameToPng c) g frames hok

theorem multi_one_png_per_frame_witness :
    awebp_to_multi_png witCodec [0] =
        Except.ok (witFrames.map (fun f => [1, 1, f, 0, 0, 255])) ∧
      (witFrames.map (fun f => [1, 1, f, 0, 0, 255])).length =
        witFrames.length :=
  multi_one_png_per_frame witCodec [0] witFrames (fun f => [1, 1, f, 0, 0, 255])
    rfl
    (by
      intro fr hfr
      simp only [witFrames, List.mem_cons, List.not_mem_nil, or_false] at hfr
      rcases hfr with rfl | rfl | rfl <;> rfl)

/-- C5: on a nonempty decoded sequence of length `N`, single-frame
conversion with `Specific(N)` and with `Last` select the same frame and
return the same output buffer. -/
theorem specific_length_eq_last {Frame : Type} (c : Codec Frame)
    (awebp_bytes : List Nat) (frames : List Frame)
    (hdec : c.decode awebp_bytes = some frames) (hne : frames ≠ []) :
    awebp_to_single_png c awebp_bytes
        (some (AwebpFramePosition.Specific frames.length)) =
      awebp_to_single_png c awebp_bytes (some AwebpFramePosition.Last) := by
  have hlen : 1 ≤ frames.length := List.length_pos.mpr hne
  have hsel : selectFrame frames (AwebpFramePosition.Specific frames.length) =
      selectFrame frames AwebpFramePosition.Last := by
    rw [selectFrame_specific_eq, Nat.max_eq_right hlen]
    simp only [selectFrame]
    rw [List.getLast?_eq_getElem?]
  simp only [awebp_to_single_png, Option.getD_some, hdec, hsel]

theorem specific_length_eq_last_witness :
    awebp_to_single_png witCodec [0]
        (some (AwebpFramePosition.Specific witFrames.length)) =
      awebp_to_single_png witCodec [0] (some AwebpFramePosition.Last) :=
  specific_length_eq_last witCodec [0] witFrames rfl (by decide)

/-- C6: when the input bytes are not a valid animated container, both
operations fail with `DecodeAwebpFailed` — for every frame-position
argument, so no frame selection or encoding can influence the result —
and produce no output buffers. -/
theorem decode_failure_dominates {Frame : Type} (c : Codec Frame)
    (awebp_bytes : List Nat) (fp : Option AwebpFramePosition)
    (hdec : c.decode awebp_bytes = none) :
    awebp_to_single_png c awebp_bytes fp =
        Except.error AwebpToPngError.DecodeAwebpFailed ∧
      awebp_to_multi_png c awebp_bytes =
        Except.error AwebpToPngError.DecodeAwebpFailed := by
  constructor
  · simp only [awebp_to_single_png, hdec]
  · simp only [awebp_to_multi_png, hdec]

theorem decode_failure_dominates_witness :
    awebp_to_single_png witCodec [] none =
        Except.error AwebpToPngError.DecodeAwebpFailed ∧
      awebp_to_multi_png witCodec [] =
        Except.error AwebpToPngError.DecodeAwebpFailed :=
  decode_failure_dominates witCodec [] none rfl

/-- C7: omitting the frame-position argument behaves exactly like passing
`First`, and the `First` policy selects the 0th element of the frame
sequence. -/
theorem none_defaults_to_first {Frame : Type} (c : Codec Frame)
    (awebp_bytes : List Nat) (frames : List Frame) :
    awebp_to_single_png c awebp_bytes none =
        awebp_to_single_png c awebp_bytes (some AwebpFramePosition.First) ∧
      selectFrame frames AwebpFramePosition.First =
        (match frames[0]? with
         | some f => Except.ok f
         | none => Except.error AwebpToPngError.AwebpSpecificFrameIsNone) :=
  ⟨rfl, selectFrame_first_eq frames⟩

/-- C8: frame selection is lazy and single-pass: `Specific(n)` consumes
exactly `min (max 1 n) L` elements of an `L`-frame sequence, `First`
consumes `min 1 L`, a request beyond the end fails only after all `L`
elements are consumed, and the instrumented selection computes the same
result as the plain one. -/
theorem selection_is_lazy {Frame : Type} (frames : List Frame) (n : Nat)
    (fp : AwebpFramePosition) :
    (selectFrameConsume frames (AwebpFramePosition.Specific n)).2 =
        min (max 1 n) frames.length
    ∧ (selectFrameConsume frames AwebpFramePosition.First).2 =
        min 1 frames.length
    ∧ (frames.length < max 1 n →
        (selectFrameConsume frames (AwebpFramePosition.Specific n)).2 =
            frames.length ∧
          (selectFrameConsume frames (AwebpFramePosition.Specific n)).1 =
            Except.error AwebpToPngError.AwebpSpecificFrameIsNone)
    ∧ (selectFrameConsume frames fp).1 = selectFrame frames fp := by
  refine ⟨selectFrameConsume_specific_count frames n,
    selectFrameConsume_first_count frames, ?_,
    selectFrameConsume_fst frames fp⟩
  intro hshort
  constructor
  · rw [selectFrameConsume_specific_count]
    omega
  · rw [selectFrameConsume_fst]
    exact selectFrame_too_short frames (AwebpFramePosition.Specific n)
      (by simpa [requiredFrames] using hshort)

theorem selection_is_lazy_witness :
    (selectFrameConsume witFrames (AwebpFramePosition.Specific 10)).2 =
        witFrames.length ∧
      (selectFrameConsume witFrames (AwebpFramePosition.Specific 10)).1 =
        Except.error AwebpToPngError.AwebpSpecificFrameIsNone :=
  (selection_is_lazy witFrames 10 AwebpFramePosition.Last).2.2.1 (by decide)

/-- C9: a successfully decoded but empty frame sequence makes
`awebp_to_multi_png` succeed with an empty list of buffers, while the
single-frame operation fails with `AwebpSpecificFrameIsNone` for every
policy. -/
theorem empty_sequence_multi_ok {Frame : Type} (c : Codec Frame)
    (awebp_bytes : List Nat) (fp : AwebpFramePosition)
    (hdec : c.decode awebp_bytes = some ([] : List Frame)) :
    awebp_to_multi_png c awebp_bytes = Except.ok [] ∧
      awebp_to_single_png c awebp_bytes (some fp) =
        Except.error AwebpToPngError.AwebpSpecificFrameIsNone := by
  constructor
  · simp only [awebp_to_multi_png, hdec]
    rfl
  · have hsel := selectFrame_too_short ([] : List Frame) fp
      (by cases fp <;> simp [requiredFrames])
    simp only [awebp_to_single_png, Option.getD_some, hdec, hsel]

theorem empty_sequence_multi_ok_witness :
    awebp_to_multi_png witCodec [1] = Except.ok [] ∧
      awebp_to_single_png witCodec [1] (some AwebpFramePosition.Last) =
        Except.error AwebpToPngError.AwebpSpecificFrameIsNone :=
  empty_sequence_multi_ok witCodec [1] AwebpFramePosition.Last rfl

/-- C10: when both calls succeed, the buffer returned by single-frame
conversion with `Specific(n)` (`n ≥ 1`) is exactly the `(n-1)`-th buffer
of the all-frames result: both pipelines apply the same per-frame
conversion and encoding. -/
theorem single_specific_matches_multi {Frame : Type} (c : Codec Frame)
    (awebp_bytes : List Nat) (n : Nat) (buf : List Nat)
    (outs : List (List Nat)) (hn : 1 ≤ n)
    (hs : awebp_to_single_png c awebp_bytes
      (some (AwebpFramePosition.Specific n)) = Except.ok buf)
    (hm : awebp_to_multi_png c awebp_bytes = Except.ok outs) :
    outs[n - 1]? = some buf := by
  cases hdec : c.decode awebp_bytes with
  | none =>
    rw [awebp_to_multi_png, hdec] at hm
    exact absurd hm (by simp)
  | some frames =>
    simp only [awebp_to_multi_png, hdec] at hm
    simp only [awebp_to_single_png, Option.getD_some, hdec] at hs
    rw [selectFrame_specific_eq, Nat.max_eq_right hn] at hs
    cases hfr : frames[n - 1]? with
    | none =>
      rw [hfr] at hs
      exact absurd hs (by simp)
    | some fr =>
      rw [hfr] at hs
      have hpng : frameToPng c fr = Except.ok buf := hs
      have hidx := mapCollect_ok_getElem? (frameToPng c) frames outs hm (n - 1)
      rw [hidx, hfr]
      simp [Except.toOption, hpng]

theorem single_specific_matches_multi_witness :
    ([[1, 1, 10, 0, 0, 255], [1, 1, 20, 0, 0, 255], [1, 1, 30, 0, 0, 255]] :
        List (List Nat))[2 - 1]? = some [1, 1, 20, 0, 0, 255] :=
  single_specific_matches_multi witCodec [0] 2 [1, 1, 20, 0, 0, 255]
    [[1, 1, 10, 0, 0, 255], [1, 1, 20, 0, 0, 255], [1, 1, 30, 0, 0, 255]]
    (by decide) rfl rfl

end Dwebp
